import Mathlib

/-!
# A verification of repopsy's concurrent extraction pipeline

This file gives a shallow embedding, in Lean 4, of the core of the
`repopsy` tool (package `internal/git`, `internal/extractor` and
`internal/app`) and proves the behavioural properties claimed by its
specification.

Modelling conventions:

* Subprocesses, the filesystem and pipes are modelled by a `World`
  record of deterministic capabilities: each capability returns the
  outcome the operating system would produce for the given arguments.
* Go `error` values are modelled by `Option`/`Except` carrying either a
  structured error (an inductive mirroring the distinct `fmt.Errorf`
  wrappings in the source) or the raw message string.
* Process bookkeeping (which subprocess was started, waited on or
  killed) is recorded in a `ProcTrace` so that "no process leak" and
  "no subprocess is spawned" are stateable.
* The worker pool of `internal/extractor` is modelled by a labelled
  small-step transition relation over a pool state (job queue, worker
  statuses, results collected so far, cancellation flag); a run of
  `Extractor.Run` is an execution of that relation from the initial
  state to a state where every worker has exited.
-/

namespace Repopsy

/-! ## Data model: commits and stats (internal/git) -/

/-- `git.CommitStats` from `internal/git/stats.go`. -/
structure CommitStats where
  FilesChanged : Nat
  Insertions : Nat
  Deletions : Nat
  deriving DecidableEq, Repr

/-- `git.Commit` from the repopsy `internal/git` package.  Dates are Unix
timestamps in seconds (Go stores a `time.Time` built by `time.Unix`). -/
structure Commit where
  Hash : String
  ShortHash : String
  Author : String
  AuthorEmail : String
  AuthorDate : Int
  Committer : String
  CommitterEmail : String
  CommitDate : Int
  Subject : String
  ParentHashes : List String
  FullMessage : String
  GPGSignature : String
  FilesChanged : Nat
  Insertions : Nat
  Deletions : Nat
  deriving DecidableEq, Repr

/-! ## The operating-system model

The git package shells out to `git` and `tar` and touches the
filesystem.  Every such effect is a capability of the `World`:

* `mkdir p` models `os.MkdirAll(p, 0755)`: `none` on success (the
  directory exists afterwards; `MkdirAll` is recursive and idempotent by
  the Go standard library contract), `some msg` on failure.
* `pipe` models `archiveCmd.StdoutPipe()`: `none` on success.
* `runGit args` / `runTar args` give the behaviour of spawning `git`
  (in the repository directory) resp. `tar` with the given arguments.
* `lsTreeLines h` models the output lines of `git ls-tree -r --name-only h`.
* `diffTreeLines h` models the output lines of
  `git diff-tree --numstat -r --root h`.
* `fullMessage h` models `Repository.GetCommitFullMessage`.
* `stats h` models `Repository.GetCommitStats`.
* `writeMeta c p` models `Commit.WriteMetadataFile` for commit `c` into
  directory `p`: `none` on success, `some msg` on failure. -/

/-- Behaviour of one spawned process: whether `Start` fails (and with
which message), whether `Wait` reports a zero exit status, and the text
the process writes to its standard error. -/
structure ProcBehavior where
  startErr : Option String
  exitOk : Bool
  stderr : String

/-- The deterministic environment the git package runs against. -/
structure World where
  mkdir : String → Option String
  pipe : Option String
  runGit : List String → ProcBehavior
  runTar : List String → ProcBehavior
  lsTreeLines : String → Except String (List String)
  diffTreeLines : String → Except String (List String)
  fullMessage : String → Except String String
  stats : String → Except String CommitStats
  writeMeta : Commit → String → Option String

/-- The distinct error shapes produced by `ExtractCommit`,
`ExtractCommitExcludingBinaries` and `runArchiveToTar`, one constructor
per distinct `fmt.Errorf` in the source:

* `mkdirFailed` — "failed to create output directory: %w"
* `osMkdirRaw` — the raw `os.MkdirAll` error returned unwrapped by the
  empty-pathspec branch of `ExtractCommitExcludingBinaries`
* `pipeFailed` — "failed to create pipe: %w"
* `archiveStartFailed` — "failed to start git archive: %w"
* `tarStartFailed` — "failed to start tar: %w"
* `archiveFailed` — "git archive failed: %s" with the captured stderr
* `tarFailed` — "tar extraction failed: %s" with the captured stderr -/
inductive GitError where
  | mkdirFailed (msg : String)
  | osMkdirRaw (msg : String)
  | pipeFailed (msg : String)
  | archiveStartFailed (msg : String)
  | tarStartFailed (msg : String)
  | archiveFailed (stderr : String)
  | tarFailed (stderr : String)
  deriving DecidableEq, Repr

/-- Process bookkeeping for one call into the git package: which of the
two subprocesses were started, which were waited on, and whether the
archiver was killed. -/
structure ProcTrace where
  archiveStarted : Bool
  archiveKilled : Bool
  archiveWaited : Bool
  tarStarted : Bool
  tarWaited : Bool
  deriving DecidableEq, Repr

/-- The trace of a call that spawned nothing. -/
def ProcTrace.none : ProcTrace := ⟨false, false, false, false, false⟩

/-- No process leaks: every started process was waited on or killed. -/
def ProcTrace.leakFree (t : ProcTrace) : Prop :=
  (t.archiveStarted = true → t.archiveWaited = true ∨ t.archiveKilled = true) ∧
  (t.tarStarted = true → t.tarWaited = true)

/-- No subprocess was spawned at all. -/
def ProcTrace.noSpawn (t : ProcTrace) : Prop :=
  t.archiveStarted = false ∧ t.tarStarted = false

/-! ## `Repository.runArchiveToTar` (internal/git/commits.go)

```go
func (r *Repository) runArchiveToTar(archiveArgs []string, destPath string) error {
    archiveCmd := exec.Command("git", archiveArgs...)
    tarCmd := exec.Command("tar", "-xf", "-", "-C", destPath)
    pipe, err := archiveCmd.StdoutPipe()
    if err != nil { return fmt.Errorf("failed to create pipe: %w", err) }
    tarCmd.Stdin = pipe
    if err := archiveCmd.Start(); err != nil {
        return fmt.Errorf("failed to start git archive: %w", err)
    }
    if err := tarCmd.Start(); err != nil {
        archiveCmd.Process.Kill()
        return fmt.Errorf("failed to start tar: %w", err)
    }
    archiveErr := archiveCmd.Wait()
    tarErr := tarCmd.Wait()
    if archiveErr != nil { return fmt.Errorf("git archive failed: %s", archiveStderr.String()) }
    if tarErr != nil { return fmt.Errorf("tar extraction failed: %s", tarStderr.String()) }
    return nil
}
``` -/
def runArchiveToTar (w : World) (archiveArgs : List String) (destPath : String) :
    Option GitError × ProcTrace :=
  match w.pipe with
  | some msg => (some (GitError.pipeFailed msg), ProcTrace.none)
  | none =>
    let a := w.runGit archiveArgs
    match a.startErr with
    | some msg => (some (GitError.archiveStartFailed msg), ProcTrace.none)
    | none =>
      let t := w.runTar ["-xf", "-", "-C", destPath]
      match t.startErr with
      | some msg =>
        (some (GitError.tarStartFailed msg),
         { archiveStarted := true, archiveKilled := true, archiveWaited := false,
           tarStarted := false, tarWaited := false })
      | none =>
        let tr : ProcTrace :=
          { archiveStarted := true, archiveKilled := false, archiveWaited := true,
            tarStarted := true, tarWaited := true }
        if a.exitOk = false then (some (GitError.archiveFailed a.stderr), tr)
        else if t.exitOk = false then (some (GitError.tarFailed t.stderr), tr)
        else (none, tr)

/-! ## `Repository.ExtractCommit` (internal/git/commits.go)

```go
func (r *Repository) ExtractCommit(hash, destPath string) error {
    if err := os.MkdirAll(destPath, 0755); err != nil {
        return fmt.Errorf("failed to create output directory: %w", err)
    }
    return r.runArchiveToTar([]string{"archive", "--format=tar", hash}, destPath)
}
``` -/
def ExtractCommit (w : World) (hash destPath : String) : Option GitError × ProcTrace :=
  match w.mkdir destPath with
  | some msg => (some (GitError.mkdirFailed msg), ProcTrace.none)
  | none => runArchiveToTar w ["archive", "--format=tar", hash] destPath

/-! ## Binary-file detection and `ExtractCommitExcludingBinaries` -/

/-- The marker `git diff-tree --numstat` puts in front of a binary
file's line: `-\t-\tfilename`. -/
def binMarker : String := "-\t-\t"

/-- One line of `diff-tree --numstat` output: a binary file's name, if
the line carries the `-\t-\t` marker (`strings.HasPrefix` followed by
`strings.TrimPrefix` in the source, written here on the character lists
so that it evaluates by reduction). -/
def parseBinaryLine (l : String) : Option String :=
  if binMarker.data.isPrefixOf l.data then some ⟨l.data.drop binMarker.data.length⟩
  else none

/-- `Repository.listFiles`: the non-empty output lines of
`git ls-tree -r --name-only`. -/
def listFiles (w : World) (hash : String) : Except String (List String) :=
  match w.lsTreeLines hash with
  | Except.error e => Except.error ("failed to list files: " ++ e)
  | Except.ok lines => Except.ok (lines.filter (fun l => l ≠ ""))

/-- `Repository.listBinaryFiles`: the set of binary files of a commit,
parsed from `git diff-tree --numstat -r --root` output.  The Go code
stores them in a `map[string]bool`; we keep the parsed list, whose
membership (`List.contains`) and emptiness agree with the map's. -/
def listBinaryFiles (w : World) (hash : String) : Except String (List String) :=
  match w.diffTreeLines hash with
  | Except.error e => Except.error ("failed to list binary files: " ++ e)
  | Except.ok lines => Except.ok (lines.filterMap parseBinaryLine)

/-! ```go
func (r *Repository) ExtractCommitExcludingBinaries(hash, destPath string, excludeBinaries bool) error {
    if !excludeBinaries { return r.ExtractCommit(hash, destPath) }
    allFiles, err := r.listFiles(hash)
    if err != nil { return r.ExtractCommit(hash, destPath) }
    binaryFiles, err := r.listBinaryFiles(hash)
    if err != nil { return r.ExtractCommit(hash, destPath) }
    if len(binaryFiles) == 0 { return r.ExtractCommit(hash, destPath) }
    var textFiles []string
    for _, file := range allFiles {
        if !binaryFiles[file] { textFiles = append(textFiles, file) }
    }
    if len(textFiles) == 0 { return os.MkdirAll(destPath, 0755) }
    if err := os.MkdirAll(destPath, 0755); err != nil {
        return fmt.Errorf("failed to create output directory: %w", err)
    }
    archiveArgs := []string{"archive", "--format=tar", hash, "--"}
    archiveArgs = append(archiveArgs, textFiles...)
    return r.runArchiveToTar(archiveArgs, destPath)
}
``` -/
def ExtractCommitExcludingBinaries (w : World) (hash destPath : String)
    (excludeBinaries : Bool) : Option GitError × ProcTrace :=
  if excludeBinaries = false then ExtractCommit w hash destPath
  else
    match listFiles w hash with
    | Except.error _ => ExtractCommit w hash destPath
    | Except.ok allFiles =>
      match listBinaryFiles w hash with
      | Except.error _ => ExtractCommit w hash destPath
      | Except.ok binaryFiles =>
        if binaryFiles.isEmpty then ExtractCommit w hash destPath
        else
          let textFiles := allFiles.filter (fun f => ! binaryFiles.contains f)
          if textFiles.isEmpty then
            match w.mkdir destPath with
            | some msg => (some (GitError.osMkdirRaw msg), ProcTrace.none)
            | none => (none, ProcTrace.none)
          else
            match w.mkdir destPath with
            | some msg => (some (GitError.mkdirFailed msg), ProcTrace.none)
            | none =>
              runArchiveToTar w (["archive", "--format=tar", hash, "--"] ++ textFiles)
                destPath

/-! ## The extractor (internal/extractor/extractor.go) -/

/-- `extractor.Config`.  `Workers` is a Go `int`; `extractor.New` coerces
any value `≤ 0` to `runtime.NumCPU()`. -/
structure Config where
  OutputDir : String
  Workers : Int
  Verbose : Bool

/-- The worker-count coercion performed by `extractor.New`. -/
def resolveWorkers (cfgWorkers : Int) (numCPU : Nat) : Nat :=
  if cfgWorkers ≤ 0 then numCPU else cfgWorkers.toNat

/-- A per-commit extraction error, as built by `extractOne`:
either the error returned by `Repository.ExtractCommit`, or the
"extraction succeeded but metadata write failed: %w" wrapper around a
`WriteMetadataFile` error. -/
inductive XError where
  | extract (e : GitError)
  | metaWrite (msg : String)
  deriving DecidableEq, Repr

/-- `extractor.Result`. -/
structure Result where
  commit : Commit
  index : Nat
  outputPath : String
  error : Option XError
  deriving DecidableEq, Repr

/-! ### Output-path computation

`extractOne` names the folder `AuthorDate.Format("20060102_150405") + "_" +
ShortHash` and joins it to `Config.OutputDir` with `filepath.Join`.  We
model the Go time formatting for UTC from the Unix timestamp (the civil
calendar computation below is the standard days-from-epoch conversion)
and `filepath.Join` on clean arguments as joining with a slash. -/

/-- Left-pad a numeral to two digits. -/
def pad2 (n : Nat) : String :=
  if n < 10 then "0" ++ toString n else toString n

/-- Left-pad a numeral to four digits. -/
def pad4 (n : Nat) : String :=
  if n < 10 then "000" ++ toString n
  else if n < 100 then "00" ++ toString n
  else if n < 1000 then "0" ++ toString n
  else toString n

/-- Gregorian (year, month, day) of a day count since 1970-01-01. -/
def civilFromDays (z0 : Int) : Int × Nat × Nat :=
  let z := z0 + 719468
  let era := Int.fdiv z 146097
  let doe := (Int.fmod z 146097).toNat
  let yoe := (doe - doe / 1460 + doe / 36524 - doe / 146096) / 365
  let y := (yoe : Int) + era * 400
  let doy := doe - (365 * yoe + yoe / 4 - yoe / 100)
  let mp := (5 * doy + 2) / 153
  let d := doy - (153 * mp + 2) / 5 + 1
  let m := if mp < 10 then mp + 3 else mp - 9
  ((if m ≤ 2 then y + 1 else y), m, d)

/-- Go's `t.Format("20060102_150405")` on the UTC instant `t` given as a
Unix timestamp in seconds. -/
def formatTimestamp (t : Int) : String :=
  let days := Int.fdiv t 86400
  let secs := (Int.fmod t 86400).toNat
  let ymd := civilFromDays days
  pad4 ymd.1.toNat ++ pad2 ymd.2.1 ++ pad2 ymd.2.2 ++ "_" ++
    pad2 (secs / 3600) ++ pad2 (secs % 3600 / 60) ++ pad2 (secs % 60)

/-- `filepath.Join` on already-clean components. -/
def joinPath (dir name : String) : String := dir ++ "/" ++ name

/-- The output path `extractOne` computes for a commit:
`filepath.Join(cfg.OutputDir, timestamp + "_" + ShortHash)`. -/
def outputPathOf (cfg : Config) (c : Commit) : String :=
  joinPath cfg.OutputDir (formatTimestamp c.AuthorDate ++ "_" ++ c.ShortHash)

/-- The enrichment step of `extractOne`: fill in `FullMessage` from
`GetCommitFullMessage` and the stats fields from `GetCommitStats`,
silently keeping the old field values when either call fails. -/
def enrichCommit (w : World) (c : Commit) : Commit :=
  let c1 :=
    match w.fullMessage c.Hash with
    | Except.ok m => { c with FullMessage := m }
    | Except.error _ => c
  match w.stats c1.Hash with
  | Except.ok s =>
    { c1 with FilesChanged := s.FilesChanged, Insertions := s.Insertions,
              Deletions := s.Deletions }
  | Except.error _ => c1

/-- Everything one call of `extractOne` did: the `Result` it returns,
the process trace of its `ExtractCommit` call, and the arguments of its
`WriteMetadataFile` call if it made one. -/
structure ExtractOneOut where
  result : Result
  trace : ProcTrace
  metaWritten : Option (Commit × String)

/-! ```go
func (e *Extractor) extractOne(commit git.Commit, index int) Result {
    timestamp := commit.AuthorDate.Format("20060102_150405")
    folderName := fmt.Sprintf("%s_%s", timestamp, commit.ShortHash)
    outputPath := filepath.Join(e.config.OutputDir, folderName)
    err := e.repo.ExtractCommit(commit.Hash, outputPath)
    if err == nil {
        if fullMsg, msgErr := e.repo.GetCommitFullMessage(commit.Hash); msgErr == nil {
            commit.FullMessage = fullMsg
        }
        if stats, statsErr := e.repo.GetCommitStats(commit.Hash); statsErr == nil {
            commit.FilesChanged = stats.FilesChanged
            commit.Insertions = stats.Insertions
            commit.Deletions = stats.Deletions
        }
        if metaErr := commit.WriteMetadataFile(outputPath); metaErr != nil {
            err = fmt.Errorf("extraction succeeded but metadata write failed: %w", metaErr)
        }
    }
    return Result{Commit: commit, Index: index, OutputPath: outputPath, Error: err}
}
``` -/
def extractOne (w : World) (cfg : Config) (c : Commit) (index : Nat) : ExtractOneOut :=
  let outputPath := outputPathOf cfg c
  match ExtractCommit w c.Hash outputPath with
  | (some e, tr) =>
    ⟨⟨c, index, outputPath, some (XError.extract e)⟩, tr, none⟩
  | (none, tr) =>
    let c2 := enrichCommit w c
    match w.writeMeta c2 outputPath with
    | some m =>
      ⟨⟨c2, index, outputPath, some (XError.metaWrite m)⟩, tr, some (c2, outputPath)⟩
    | none => ⟨⟨c2, index, outputPath, none⟩, tr, some (c2, outputPath)⟩

/-! ## The worker pool as a labelled transition system

`Extractor.Run` pre-loads a buffered `jobs` channel with every commit
paired with its index, closes it, starts `Workers` goroutines running
`worker`, and collects from a buffered `results` channel until all
workers have exited.  Each `worker` loops over

```go
select {
case <-ctx.Done(): return
case j, ok := <-jobs:
    if !ok { return }
    result := e.extractOne(j.commit, j.index)
    results <- result
    reporter.Increment(...)
}
```

The model: the pool state holds the queue contents, one status per
worker (`idle` at the `select`, `busy j` while `extractOne` for job `j`
is in flight, `done` after `return`), the results sent so far (both
channels are buffered to the item count, so sends never block), and the
cancellation flag.  A scheduler step is one of:

* `pickup i` — idle worker `i` receives the next job from the queue;
* `finish i` — busy worker `i` completes `extractOne` and sends its
  `Result`;
* `exitClosed i` — idle worker `i` sees the closed, drained queue and
  returns;
* `exitCancelled i` — idle worker `i` takes the `ctx.Done()` branch
  (possible only once the flag is set; Go's `select` picks either ready
  branch, so a set flag does not force this step);
* `cancel` — the external context is cancelled.
-/

/-- `extractor.job`. -/
structure Job where
  commit : Commit
  index : Nat
  deriving DecidableEq, Repr

/-- The `Result` a worker sends for a job (body of the worker loop). -/
def runJob (w : World) (cfg : Config) (j : Job) : Result :=
  (extractOne w cfg j.commit j.index).result

/-- Status of one worker goroutine. -/
inductive WStatus where
  | idle
  | busy (j : Job)
  | done
  deriving DecidableEq, Repr

/-- Global state of one `Extractor.Run` invocation. -/
structure PoolState where
  queue : List Job
  workers : List WStatus
  results : List Result
  cancelled : Bool
  deriving DecidableEq, Repr

/-- Scheduler events. -/
inductive Ev where
  | pickup (i : Nat)
  | finish (i : Nat)
  | exitClosed (i : Nat)
  | exitCancelled (i : Nat)
  | cancel
  deriving DecidableEq, Repr

/-- One scheduler step of the worker pool. -/
inductive Step (w : World) (cfg : Config) : Ev → PoolState → PoolState → Prop where
  | pickup (s : PoolState) (i : Nat) (j : Job) (rest : List Job)
      (hw : s.workers.get? i = some WStatus.idle) (hq : s.queue = j :: rest) :
      Step w cfg (Ev.pickup i) s
        ⟨rest, s.workers.set i (WStatus.busy j), s.results, s.cancelled⟩
  | finish (s : PoolState) (i : Nat) (j : Job)
      (hw : s.workers.get? i = some (WStatus.busy j)) :
      Step w cfg (Ev.finish i) s
        ⟨s.queue, s.workers.set i WStatus.idle, s.results ++ [runJob w cfg j],
         s.cancelled⟩
  | exitClosed (s : PoolState) (i : Nat)
      (hw : s.workers.get? i = some WStatus.idle) (hq : s.queue = []) :
      Step w cfg (Ev.exitClosed i) s
        ⟨s.queue, s.workers.set i WStatus.done, s.results, s.cancelled⟩
  | exitCancelled (s : PoolState) (i : Nat)
      (hw : s.workers.get? i = some WStatus.idle) (hc : s.cancelled = true) :
      Step w cfg (Ev.exitCancelled i) s
        ⟨s.queue, s.workers.set i WStatus.done, s.results, s.cancelled⟩
  | cancel (s : PoolState) :
      Step w cfg Ev.cancel s ⟨s.queue, s.workers, s.results, true⟩

/-- A finite execution of the pool: the list of events taken. -/
inductive Exec (w : World) (cfg : Config) : PoolState → List Ev → PoolState → Prop where
  | nil (s : PoolState) : Exec w cfg s [] s
  | cons {s s' s'' : PoolState} {e : Ev} {tr : List Ev}
      (hstep : Step w cfg e s s') (hrest : Exec w cfg s' tr s'') :
      Exec w cfg s (e :: tr) s''

/-- The jobs `Run` enqueues: each commit paired with its position. -/
def jobsOf (commits : List Commit) : List Job :=
  commits.enum.map (fun p => ⟨p.2, p.1⟩)

/-- The initial pool state of `Extractor.Run`: the full job queue
(buffered channel, filled and closed before collection), `workers` idle
goroutines, no results, context not cancelled. -/
def runInit (commits : List Commit) (workers : Nat) : PoolState :=
  ⟨jobsOf commits, List.replicate workers WStatus.idle, [], false⟩

/-- All workers have returned (the `sync.WaitGroup` is drained, so the
results channel is closed and collection ends). -/
def AllDone (ws : List WStatus) : Prop := ∀ x ∈ ws, x = WStatus.done

/-- A complete run of the pool: an execution from the initial state to a
state where every worker has exited. -/
def RunExec (w : World) (cfg : Config) (commits : List Commit) (workers : Nat)
    (tr : List Ev) (final : PoolState) : Prop :=
  Exec w cfg (runInit commits workers) tr final ∧ AllDone final.workers

/-- The aggregate error built by `Extractor.Run` when any extraction
failed: `fmt.Errorf("%d of %d extractions failed: %w", len(errs),
len(commits), errors.Join(errs...))`. -/
structure AggErr where
  failed : Nat
  total : Nat
  causes : List XError
  deriving DecidableEq, Repr

/-- The collection phase of `Extractor.Run`: append every received
result, gather the non-nil errors, and synthesize the aggregate verdict.

```go
allResults := make([]Result, 0, len(commits))
var extractionErrs []error
for result := range results {
    allResults = append(allResults, result)
    if result.Error != nil { extractionErrs = append(extractionErrs, result.Error) }
}
if len(extractionErrs) > 0 {
    return allResults, fmt.Errorf("%d of %d extractions failed: %w",
        len(extractionErrs), len(commits), errors.Join(extractionErrs...))
}
return allResults, nil
``` -/
def collectResults (total : Nat) (rs : List Result) : List Result × Option AggErr :=
  let errs := rs.filterMap Result.error
  if 0 < errs.length then (rs, some ⟨errs.length, total, errs⟩) else (rs, none)

/-- `Extractor.Run` as a relation between inputs and the returned pair:
the empty-input fast path returns `(nil, nil)` with no pool at all;
otherwise some complete pool execution produced the collected results. -/
def RunOut (w : World) (cfg : Config) (commits : List Commit) (workers : Nat)
    (out : List Result × Option AggErr) : Prop :=
  (commits = [] ∧ out = ([], none)) ∨
  (commits ≠ [] ∧ ∃ tr final, RunExec w cfg commits workers tr final ∧
    out = collectResults commits.length final.results)

/-! ## Branch handling (internal/app/app.go) -/

/-- `app.sanitizeBranchName`: `strings.ReplaceAll(branch, "/", "_")`.
The pattern and replacement are single characters, so `ReplaceAll` is
exactly a character-wise map, written here on the character list so
that it evaluates by reduction. -/
def sanitizeBranchName (branch : String) : String :=
  ⟨branch.data.map (fun ch => if ch = '/' then '_' else ch)⟩

/-- The per-branch output directory `runAllBranches` computes:
`filepath.Join(outDir, sanitizeBranchName(branch))`. -/
def branchDirOf (outDir branch : String) : String :=
  joinPath outDir (sanitizeBranchName branch)

/-! ## Auxiliary definitions for the pool proofs -/

/-- No cancellation was requested during the trace. -/
def NoCancel (tr : List Ev) : Prop := ∀ e ∈ tr, e ≠ Ev.cancel

/-- The job a worker currently holds, if any. -/
def busyJob : WStatus → Option Job
  | WStatus.busy j => some j
  | _ => none

/-- The jobs currently held by workers (in-flight extractions). -/
def strayList (ws : List WStatus) : List Job := ws.filterMap busyJob

/-- The conserved quantity of the pool: every job's eventual `Result`,
counted once, whether it still sits in the queue, is in flight inside a
worker, or has been sent on the results channel. -/
def poolMS (w : World) (cfg : Config) (s : PoolState) : Multiset Result :=
  Multiset.map (runJob w cfg) ((s.queue : Multiset Job) + (strayList s.workers : Multiset Job))
    + (s.results : Multiset Result)

/-! ## Concrete fixtures used by the witness theorems -/

/-- A world in which every capability succeeds. -/
def worldOk : World where
  mkdir := fun _ => none
  pipe := none
  runGit := fun _ => ⟨none, true, ""⟩
  runTar := fun _ => ⟨none, true, ""⟩
  lsTreeLines := fun _ => Except.ok []
  diffTreeLines := fun _ => Except.ok []
  fullMessage := fun _ => Except.ok "full message"
  stats := fun _ => Except.ok ⟨1, 2, 3⟩
  writeMeta := fun _ _ => none

/-- A world where starting `tar` fails. -/
def wTarStartFail : World := { worldOk with runTar := fun _ => ⟨some "boom", true, ""⟩ }

/-- A world where `git archive` and `tar` both exit non-zero. -/
def wBothExitFail : World :=
  { worldOk with runGit := fun _ => ⟨none, false, "fatal: bad revision"⟩,
                 runTar := fun _ => ⟨none, false, "tar: short read"⟩ }

/-- A world where only `tar` exits non-zero. -/
def wTarExitFail : World := { worldOk with runTar := fun _ => ⟨none, false, "tar: broken"⟩ }

/-- A world where `os.MkdirAll` fails. -/
def wMkdirFail : World := { worldOk with mkdir := fun _ => some "permission denied" }

/-- A world where the only file of the commit is binary and creating the
destination directory fails. -/
def wAllBinMkdirFail : World :=
  { worldOk with lsTreeLines := fun _ => Except.ok ["a.bin"],
                 diffTreeLines := fun _ => Except.ok ["-\t-\ta.bin"],
                 mkdir := fun _ => some "disk full" }

/-- A world where the only file of the commit is binary (mkdir fine). -/
def wAllBin : World :=
  { worldOk with lsTreeLines := fun _ => Except.ok ["a.bin"],
                 diffTreeLines := fun _ => Except.ok ["-\t-\ta.bin"] }

/-- A world with one binary and one text file. -/
def wMixedFiles : World :=
  { worldOk with lsTreeLines := fun _ => Except.ok ["a.txt", "b.bin"],
                 diffTreeLines := fun _ => Except.ok ["-\t-\tb.bin", "5\t0\ta.txt"] }

/-- A world where the metadata write fails. -/
def wMetaFail : World := { worldOk with writeMeta := fun _ _ => some "no space" }

/-- A world where both enrichment calls fail. -/
def wEnrichFail : World :=
  { worldOk with fullMessage := fun _ => Except.error "log failed",
                 stats := fun _ => Except.error "show failed" }

/-- A world where every `git archive` exits non-zero (so every
extraction fails). -/
def wExtractFail : World := { worldOk with runGit := fun _ => ⟨none, false, "bad object"⟩ }

/-- A concrete commit with all enrichable fields at their zero values. -/
def c0 : Commit :=
  ⟨"deadbeef", "abc1234", "Ada", "ada@example.org", 0, "Ada", "ada@example.org", 0,
   "initial", [], "", "", 0, 0, 0⟩

/-- A concrete extractor configuration. -/
def cfg0 : Config := ⟨"out", 4, false⟩

/-- The single job of the demonstration runs. -/
def demoJob : Job := ⟨c0, 0⟩

/-- The trace of a call in which both subprocesses were started and both
were waited on. -/
def ProcTrace.bothWaited : ProcTrace := ⟨true, false, true, true, true⟩

/-- Final pool state of the one-worker demonstration run. -/
def demoFinal1 : PoolState := ⟨[], [WStatus.done], [runJob wExtractFail cfg0 demoJob], false⟩

/-- Final pool state of the two-worker demonstration run. -/
def demoFinal2 : PoolState :=
  ⟨[], [WStatus.done, WStatus.done], [runJob wExtractFail cfg0 demoJob], false⟩

/-- `Extractor.Run` restricted to runs during which cancellation is
never requested (the regime of the spec's testable properties). -/
def RunOutNC (w : World) (cfg : Config) (commits : List Commit) (workers : Nat)
    (out : List Result × Option AggErr) : Prop :=
  (commits = [] ∧ out = ([], none)) ∨
  (commits ≠ [] ∧ ∃ tr final, RunExec w cfg commits workers tr final ∧ NoCancel tr ∧
    out = collectResults commits.length final.results)

/-! # Theorems -/

/-- C3: in `runArchiveToTar`, (a) if starting `tar` fails after
`git archive` has started, the archiver process is killed — no process
leak — and the reported failure is the tar start failure; (b) a non-zero
exit of the archiver is reported as a failure carrying the archiver's
captured standard error, with no condition on how `tar` exited — so when
both processes fail the archiver's failure takes precedence; (c) a
non-zero exit of `tar` alone is reported with `tar`'s captured standard
error. -/
theorem runArchiveToTar_failure_reporting (w : World) (args : List String) (dest : String) :
    (∀ msg, w.pipe = none → (w.runGit args).startErr = none →
      (w.runTar ["-xf", "-", "-C", dest]).startErr = some msg →
      runArchiveToTar w args dest =
        (some (GitError.tarStartFailed msg),
         { archiveStarted := true, archiveKilled := true, archiveWaited := false,
           tarStarted := false, tarWaited := false }) ∧
      (runArchiveToTar w args dest).2.leakFree)
    ∧ (w.pipe = none → (w.runGit args).startErr = none →
      (w.runTar ["-xf", "-", "-C", dest]).startErr = none →
      (w.runGit args).exitOk = false →
      runArchiveToTar w args dest =
        (some (GitError.archiveFailed (w.runGit args).stderr), ProcTrace.bothWaited) ∧
      (runArchiveToTar w args dest).2.leakFree)
    ∧ (w.pipe = none → (w.runGit args).startErr = none →
      (w.runTar ["-xf", "-", "-C", dest]).startErr = none →
      (w.runGit args).exitOk = true →
      (w.runTar ["-xf", "-", "-C", dest]).exitOk = false →
      runArchiveToTar w args dest =
        (some (GitError.tarFailed (w.runTar ["-xf", "-", "-C", dest]).stderr),
         ProcTrace.bothWaited) ∧
      (runArchiveToTar w args dest).2.leakFree) := by
  refine ⟨fun msg h1 h2 h3 => ?_, fun h1 h2 h3 h4 => ?_, fun h1 h2 h3 h4 h5 => ?_⟩ <;>
    simp [runArchiveToTar, h1, h2, h3, ProcTrace.leakFree, ProcTrace.bothWaited, *]

/-- Witness for C3: the three failure scenarios at concrete worlds. -/
theorem runArchiveToTar_failure_reporting_witness :
    ((wTarStartFail.runTar ["-xf", "-", "-C", "d"]).startErr = some "boom" ∧
      runArchiveToTar wTarStartFail ["archive", "--format=tar", "h"] "d" =
        (some (GitError.tarStartFailed "boom"),
         { archiveStarted := true, archiveKilled := true, archiveWaited := false,
           tarStarted := false, tarWaited := false }))
    ∧ ((wBothExitFail.runGit ["archive", "--format=tar", "h"]).exitOk = false ∧
      runArchiveToTar wBothExitFail ["archive", "--format=tar", "h"] "d" =
        (some (GitError.archiveFailed "fatal: bad revision"), ProcTrace.bothWaited))
    ∧ ((wTarExitFail.runTar ["-xf", "-", "-C", "d"]).exitOk = false ∧
      runArchiveToTar wTarExitFail ["archive", "--format=tar", "h"] "d" =
        (some (GitError.tarFailed "tar: broken"), ProcTrace.bothWaited)) :=
  ⟨⟨rfl, ((runArchiveToTar_failure_reporting wTarStartFail ["archive", "--format=tar", "h"]
      "d").1 "boom" rfl rfl rfl).1⟩,
   ⟨rfl, ((runArchiveToTar_failure_reporting wBothExitFail ["archive", "--format=tar", "h"]
      "d").2.1 rfl rfl rfl rfl).1⟩,
   ⟨rfl, ((runArchiveToTar_failure_reporting wTarExitFail ["archive", "--format=tar", "h"]
      "d").2.2 rfl rfl rfl rfl rfl).1⟩⟩

/-- C6: `ExtractCommit` performs the recursive, idempotent directory
creation (`os.MkdirAll`, modelled by `World.mkdir`) before anything
else; if it fails the item is aborted with the structured
`mkdirFailed` error and no subprocess is spawned, and if it succeeds the
call proceeds exactly as `runArchiveToTar` on the fixed archive
arguments. -/
theorem extractCommit_mkdir_gate (w : World) (hash dest : String) :
    (∀ msg, w.mkdir dest = some msg →
      ExtractCommit w hash dest = (some (GitError.mkdirFailed msg), ProcTrace.none) ∧
      (ExtractCommit w hash dest).2.noSpawn)
    ∧ (w.mkdir dest = none →
      ExtractCommit w hash dest = runArchiveToTar w ["archive", "--format=tar", hash] dest) := by
  constructor
  · intro msg h
    simp [ExtractCommit, h, ProcTrace.noSpawn, ProcTrace.none]
  · intro h
    simp [ExtractCommit, h]

/-- Witness for C6: a concrete world with a failing `mkdir` aborts with
the structured error and no subprocess; with a succeeding `mkdir` the
pipeline runs. -/
theorem extractCommit_mkdir_gate_witness :
    (wMkdirFail.mkdir "d" = some "permission denied" ∧
      ExtractCommit wMkdirFail "h" "d" =
        (some (GitError.mkdirFailed "permission denied"), ProcTrace.none) ∧
      (ExtractCommit wMkdirFail "h" "d").2.noSpawn)
    ∧ (worldOk.mkdir "d" = none ∧
      ExtractCommit worldOk "h" "d" = runArchiveToTar worldOk ["archive", "--format=tar", "h"] "d") :=
  ⟨⟨rfl, ((extractCommit_mkdir_gate wMkdirFail "h" "d").1 "permission denied" rfl).1,
    ((extractCommit_mkdir_gate wMkdirFail "h" "d").1 "permission denied" rfl).2⟩,
   ⟨rfl, (extractCommit_mkdir_gate worldOk "h" "d").2 rfl⟩⟩

/-- C4 counterexample: with one commit whose only file is binary and a
failing `os.MkdirAll`, the empty set-difference branch of
`ExtractCommitExcludingBinaries` spawns no subprocess but returns the
raw mkdir error — not "no error" as the claim states. -/
theorem extractExcludingBinaries_empty_diff_error_counterexample :
    (ExtractCommitExcludingBinaries wAllBinMkdirFail "h" "d" true).1 =
      some (GitError.osMkdirRaw "disk full") ∧
    (ExtractCommitExcludingBinaries wAllBinMkdirFail "h" "d" true).2 = ProcTrace.none ∧
    ¬ (ExtractCommitExcludingBinaries wAllBinMkdirFail "h" "d" true).1 = none := by
  refine ⟨by decide, by decide, by decide⟩

/-- C4 (amended): `ExtractCommitExcludingBinaries` equals the plain
`ExtractCommit` fast path when exclusion is disabled or the commit has
no binary files; when binaries exist and the set-difference (all files
minus binary files) is non-empty it archives exactly that path list; and
when the set-difference is empty it spawns no subprocess and only
creates the destination directory — returning no error when that
creation succeeds, and the raw directory-creation error otherwise. -/
theorem extractExcludingBinaries_contract (w : World) (hash dest : String) :
    (ExtractCommitExcludingBinaries w hash dest false = ExtractCommit w hash dest)
    ∧ (listBinaryFiles w hash = Except.ok [] →
      ExtractCommitExcludingBinaries w hash dest true = ExtractCommit w hash dest)
    ∧ (∀ allFiles binaryFiles textFiles,
      listFiles w hash = Except.ok allFiles →
      listBinaryFiles w hash = Except.ok binaryFiles →
      binaryFiles.isEmpty = false →
      textFiles = allFiles.filter (fun f => ! binaryFiles.contains f) →
      ((textFiles.isEmpty = false → w.mkdir dest = none →
        ExtractCommitExcludingBinaries w hash dest true =
          runArchiveToTar w (["archive", "--format=tar", hash, "--"] ++ textFiles) dest)
      ∧ (textFiles.isEmpty = true → w.mkdir dest = none →
        ExtractCommitExcludingBinaries w hash dest true = (none, ProcTrace.none))
      ∧ (textFiles.isEmpty = true → ∀ msg, w.mkdir dest = some msg →
        ExtractCommitExcludingBinaries w hash dest true =
          (some (GitError.osMkdirRaw msg), ProcTrace.none)))) := by
  refine ⟨by simp [ExtractCommitExcludingBinaries], ?_, ?_⟩
  · intro hbins
    cases hfiles : listFiles w hash with
    | error e => simp [ExtractCommitExcludingBinaries, hfiles]
    | ok allFiles => simp [ExtractCommitExcludingBinaries, hfiles, hbins]
  · intro allFiles binaryFiles textFiles hfiles hbins hne htf
    subst htf
    refine ⟨fun htne hmk => ?_, fun hte hmk => ?_, fun hte msg hmk => ?_⟩
    · simp only [ExtractCommitExcludingBinaries, hfiles, hbins, hne, htne, hmk]
      simp
    · simp only [ExtractCommitExcludingBinaries, hfiles, hbins, hne, hte, hmk]
      simp
    · simp only [ExtractCommitExcludingBinaries, hfiles, hbins, hne, hte, hmk]
      simp

/-- Witness for C4 (amended): the three regimes at concrete worlds —
no binaries (fast path), mixed files (explicit path list), all files
binary (no subprocess, mkdir outcome decides the error). -/
theorem extractExcludingBinaries_contract_witness :
    (listBinaryFiles worldOk "h" = Except.ok [] ∧
      ExtractCommitExcludingBinaries worldOk "h" "d" true = ExtractCommit worldOk "h" "d")
    ∧ (ExtractCommitExcludingBinaries wMixedFiles "h" "d" true =
        runArchiveToTar wMixedFiles (["archive", "--format=tar", "h", "--"] ++ ["a.txt"]) "d")
    ∧ (ExtractCommitExcludingBinaries wAllBin "h" "d" true = (none, ProcTrace.none))
    ∧ (ExtractCommitExcludingBinaries wAllBinMkdirFail "h" "d" true =
        (some (GitError.osMkdirRaw "disk full"), ProcTrace.none)) :=
  ⟨⟨rfl, (extractExcludingBinaries_contract worldOk "h" "d").2.1 rfl⟩,
   ((extractExcludingBinaries_contract wMixedFiles "h" "d").2.2 ["a.txt", "b.bin"] ["b.bin"]
      ["a.txt"] rfl rfl rfl (by decide)).1 rfl rfl,
   ((extractExcludingBinaries_contract wAllBin "h" "d").2.2 ["a.bin"] ["a.bin"] [] rfl rfl
      rfl (by decide)).2.1 rfl rfl,
   ((extractExcludingBinaries_contract wAllBinMkdirFail "h" "d").2.2 ["a.bin"] ["a.bin"] []
      rfl rfl rfl (by decide)).2.2 rfl "disk full" rfl⟩

/-- C5: when `ExtractCommit` succeeds but the subsequent
`WriteMetadataFile` fails, `extractOne` downgrades the outcome to a
failure whose error wraps the metadata-write error; and the resulting
`Result` is what a worker holding that job sends on the results channel,
exactly as for any other outcome. -/
theorem extractOne_metadata_failure_downgrade (w : World) (cfg : Config) (c : Commit)
    (index : Nat) (m : String) (tr : ProcTrace)
    (hx : ExtractCommit w c.Hash (outputPathOf cfg c) = (none, tr))
    (hmeta : w.writeMeta (enrichCommit w c) (outputPathOf cfg c) = some m) :
    (extractOne w cfg c index).result.error = some (XError.metaWrite m)
    ∧ ∀ (s : PoolState) (i : Nat), s.workers.get? i = some (WStatus.busy ⟨c, index⟩) →
      Step w cfg (Ev.finish i) s
        ⟨s.queue, s.workers.set i WStatus.idle,
         s.results ++ [(extractOne w cfg c index).result], s.cancelled⟩ := by
  constructor
  · simp [extractOne, hx, hmeta]
  · exact fun s i h => Step.finish s i ⟨c, index⟩ h

/-- Witness for C5: a concrete successful extraction whose metadata
write fails yields a failed `Result` wrapping the write error. -/
theorem extractOne_metadata_failure_downgrade_witness :
    (ExtractCommit wMetaFail c0.Hash (outputPathOf cfg0 c0) = (none, ProcTrace.bothWaited)
      ∧ wMetaFail.writeMeta (enrichCommit wMetaFail c0) (outputPathOf cfg0 c0) = some "no space")
    ∧ (extractOne wMetaFail cfg0 c0 0).result.error = some (XError.metaWrite "no space") :=
  ⟨⟨rfl, rfl⟩,
   (extractOne_metadata_failure_downgrade wMetaFail cfg0 c0 0 "no space"
      ProcTrace.bothWaited rfl rfl).1⟩

/-- C10: failures of `GetCommitFullMessage` and `GetCommitStats` are
silently tolerated by `extractOne`: after a successful extraction with a
successful metadata write the `Result` reports success, the metadata
file is written, and the fields a failed enrichment call would have
filled keep the input commit's (zero) values. -/
theorem extractOne_enrichment_failures_tolerated (w : World) (cfg : Config) (c : Commit)
    (index : Nat) (tr : ProcTrace)
    (hx : ExtractCommit w c.Hash (outputPathOf cfg c) = (none, tr))
    (hmeta : w.writeMeta (enrichCommit w c) (outputPathOf cfg c) = none) :
    (extractOne w cfg c index).result.error = none
    ∧ (extractOne w cfg c index).metaWritten = some (enrichCommit w c, outputPathOf cfg c)
    ∧ (∀ e, w.fullMessage c.Hash = Except.error e →
        (enrichCommit w c).FullMessage = c.FullMessage)
    ∧ (∀ e, w.stats c.Hash = Except.error e →
        (enrichCommit w c).FilesChanged = c.FilesChanged ∧
        (enrichCommit w c).Insertions = c.Insertions ∧
        (enrichCommit w c).Deletions = c.Deletions) := by
  refine ⟨by simp [extractOne, hx, hmeta], by simp [extractOne, hx, hmeta], ?_, ?_⟩
  · intro e he
    unfold enrichCommit
    rw [he]
    cases hs : w.stats c.Hash <;> simp [hs]
  · intro e he
    unfold enrichCommit
    cases hm : w.fullMessage c.Hash <;> simp [hm, he]

/-- Witness for C10: with both enrichment calls failing on a zero-valued
commit, the outcome is a success and the written metadata keeps the zero
values. -/
theorem extractOne_enrichment_failures_tolerated_witness :
    (ExtractCommit wEnrichFail c0.Hash (outputPathOf cfg0 c0) = (none, ProcTrace.bothWaited)
      ∧ wEnrichFail.writeMeta (enrichCommit wEnrichFail c0) (outputPathOf cfg0 c0) = none
      ∧ wEnrichFail.fullMessage c0.Hash = Except.error "log failed"
      ∧ wEnrichFail.stats c0.Hash = Except.error "show failed")
    ∧ (extractOne wEnrichFail cfg0 c0 0).result.error = none
    ∧ (extractOne wEnrichFail cfg0 c0 0).metaWritten =
        some (enrichCommit wEnrichFail c0, outputPathOf cfg0 c0)
    ∧ (enrichCommit wEnrichFail c0).FullMessage = ""
    ∧ (enrichCommit wEnrichFail c0).FilesChanged = 0 :=
  ⟨⟨rfl, rfl, rfl, rfl⟩,
   (extractOne_enrichment_failures_tolerated wEnrichFail cfg0 c0 0
      ProcTrace.bothWaited rfl rfl).1,
   (extractOne_enrichment_failures_tolerated wEnrichFail cfg0 c0 0
      ProcTrace.bothWaited rfl rfl).2.1,
   ((extractOne_enrichment_failures_tolerated wEnrichFail cfg0 c0 0
      ProcTrace.bothWaited rfl rfl).2.2.1 "log failed" rfl).trans rfl,
   (((extractOne_enrichment_failures_tolerated wEnrichFail cfg0 c0 0
      ProcTrace.bothWaited rfl rfl).2.2.2 "show failed" rfl).1).trans rfl⟩

/-- C9: `sanitizeBranchName` is not injective — the distinct branches
`a/b` and `a_b` map to the same directory name, so `runAllBranches`
would send both into the same output subdirectory. -/
theorem sanitizeBranchName_not_injective :
    sanitizeBranchName "a/b" = sanitizeBranchName "a_b" ∧
    ("a/b" : String) ≠ "a_b" ∧
    branchDirOf "out" "a/b" = branchDirOf "out" "a_b" := by decide

/-! ## Pool invariants -/

/-- Unfolding `strayList` over a cons cell. -/
theorem strayList_cons (y : WStatus) (l : List WStatus) :
    strayList (y :: l) = (busyJob y).toList ++ strayList l := by
  cases y <;> simp [strayList, busyJob, List.filterMap_cons]

/-- Updating one worker's status exchanges its held job in the stray
multiset. -/
theorem strayMS_set (ws : List WStatus) (i : Nat) (v a : WStatus)
    (h : ws.get? i = some a) :
    (strayList (ws.set i v) : Multiset Job) + ((busyJob a).toList : List Job)
      = (strayList ws : Multiset Job) + ((busyJob v).toList : List Job) := by
  induction ws generalizing i with
  | nil => simp at h
  | cons x xs ih =>
    cases i with
    | zero =>
      rw [List.get?_cons_zero] at h
      cases h
      simp only [List.set, strayList_cons, ← Multiset.coe_add]
      abel
    | succ n =>
      rw [List.get?_cons_succ] at h
      simp only [List.set, strayList_cons, ← Multiset.coe_add]
      rw [add_assoc, ih n h, ← add_assoc]

/-- Once every worker has exited, no job is in flight. -/
theorem strayList_eq_nil_of_allDone (ws : List WStatus) (h : AllDone ws) :
    strayList ws = [] := by
  rw [strayList, List.filterMap_eq_nil_iff]
  intro a ha
  have := h a ha
  subst this
  rfl

/-- At the start of a run no job is in flight. -/
theorem strayList_replicate_idle (n : Nat) :
    strayList (List.replicate n WStatus.idle) = [] := by
  rw [strayList, List.filterMap_eq_nil_iff]
  intro a ha
  have := List.eq_of_mem_replicate ha
  subst this
  rfl

/-- A single non-cancel step keeps the cancellation flag unset, keeps
the "all workers exited implies empty queue" property, and conserves the
pool multiset: no result is created, duplicated or dropped. -/
theorem step_preserves (w : World) (cfg : Config) {e : Ev} {s s' : PoolState}
    (hstep : Step w cfg e s s') (hne : e ≠ Ev.cancel)
    (hcf : s.cancelled = false) (hqd : AllDone s.workers → s.queue = []) :
    s'.cancelled = false ∧ (AllDone s'.workers → s'.queue = []) ∧
      poolMS w cfg s' = poolMS w cfg s := by
  cases hstep with
  | pickup s i j rest hw hq =>
    refine ⟨hcf, ?_, ?_⟩
    · intro hd
      exfalso
      have hlt : i < s.workers.length := (List.get?_eq_some.mp hw).1
      have hget : (s.workers.set i (WStatus.busy j)).get? i = some (WStatus.busy j) :=
        List.get?_set_eq_of_lt _ hlt
      have := hd _ (List.get?_mem hget)
      simp at this
    · have hms := strayMS_set s.workers i (WStatus.busy j) WStatus.idle hw
      simp only [busyJob, Option.toList, Multiset.coe_nil, add_zero,
        Multiset.coe_singleton] at hms
      have key : ((rest : Multiset Job) +
          ↑(strayList (s.workers.set i (WStatus.busy j)))) =
          (↑(j :: rest) + ↑(strayList s.workers) : Multiset Job) := by
        rw [hms, ← Multiset.cons_coe, ← Multiset.singleton_add]
        abel
      simp only [poolMS, hq, key]
  | finish s i j hw =>
    refine ⟨hcf, ?_, ?_⟩
    · intro hd
      exfalso
      have hlt : i < s.workers.length := (List.get?_eq_some.mp hw).1
      have hget : (s.workers.set i WStatus.idle).get? i = some WStatus.idle :=
        List.get?_set_eq_of_lt _ hlt
      have := hd _ (List.get?_mem hget)
      simp at this
    · have hms := strayMS_set s.workers i WStatus.idle (WStatus.busy j) hw
      simp only [busyJob, Option.toList, Multiset.coe_nil, add_zero,
        Multiset.coe_singleton] at hms
      simp only [poolMS, ← hms, ← Multiset.coe_add, Multiset.coe_singleton,
        Multiset.map_add, Multiset.map_singleton]
      abel
  | exitClosed s i hw hq =>
    refine ⟨hcf, fun _ => hq, ?_⟩
    have hms := strayMS_set s.workers i WStatus.done WStatus.idle hw
    simp only [busyJob, Option.toList, Multiset.coe_nil, add_zero] at hms
    simp only [poolMS, hms]
  | exitCancelled s i hw hc =>
    rw [hcf] at hc
    cases hc
  | cancel s =>
    exact absurd rfl hne

/-- Iterating `step_preserves` along an execution with no cancellation
event. -/
theorem exec_preserves (w : World) (cfg : Config) {s : PoolState} {tr : List Ev}
    {s' : PoolState} (hexec : Exec w cfg s tr s') :
    NoCancel tr → s.cancelled = false → (AllDone s.workers → s.queue = []) →
    s'.cancelled = false ∧ (AllDone s'.workers → s'.queue = []) ∧
      poolMS w cfg s' = poolMS w cfg s := by
  induction hexec with
  | nil s => exact fun _ hcf hqd => ⟨hcf, hqd, rfl⟩
  | cons hstep hrest ih =>
    intro hnc hcf hqd
    have hne := hnc _ (List.mem_cons_self _ _)
    obtain ⟨hcf1, hqd1, hms1⟩ := step_preserves w cfg hstep hne hcf hqd
    obtain ⟨hcf2, hqd2, hms2⟩ := ih (fun e he => hnc e (List.mem_cons_of_mem _ he)) hcf1 hqd1
    exact ⟨hcf2, hqd2, hms2.trans hms1⟩

/-- Master lemma: a complete, never-cancelled run collects exactly the
multiset of per-job results — one `Result` per submitted commit. -/
theorem runExec_results_perm (w : World) (cfg : Config) (commits : List Commit)
    (workers : Nat) (tr : List Ev) (final : PoolState)
    (hexec : Exec w cfg (runInit commits workers) tr final)
    (hnc : NoCancel tr) (hdone : AllDone final.workers) (hpos : 0 < workers) :
    final.results.Perm ((jobsOf commits).map (runJob w cfg)) := by
  have hinit_qd : AllDone (runInit commits workers).workers →
      (runInit commits workers).queue = [] := by
    intro hd
    exfalso
    have hmem : WStatus.idle ∈ (runInit commits workers).workers := by
      simp only [runInit, List.mem_replicate]
      exact ⟨Nat.pos_iff_ne_zero.mp hpos, trivial⟩
    have := hd _ hmem
    simp at this
  obtain ⟨-, hqd, hms⟩ := exec_preserves w cfg hexec hnc rfl hinit_qd
  have hq := hqd hdone
  have hstray := strayList_eq_nil_of_allDone final.workers hdone
  rw [poolMS, poolMS] at hms
  simp only [hq, hstray, runInit, strayList_replicate_idle, Multiset.coe_nil, add_zero,
    Multiset.map_zero, zero_add, Multiset.map_coe] at hms
  exact Multiset.coe_eq_coe.mp hms


/-- Every branch of `extractOne` copies the job index into the result. -/
theorem extractOne_index (w : World) (cfg : Config) (c : Commit) (i : Nat) :
    (extractOne w cfg c i).result.index = i := by
  simp only [extractOne]
  split
  · rfl
  · split <;> rfl

/-- The index of the `Result` a worker sends is the job's index. -/
theorem runJob_index (w : World) (cfg : Config) (j : Job) :
    (runJob w cfg j).index = j.index :=
  extractOne_index w cfg j.commit j.index

/-- The collector returns every received result (it never drops one). -/
theorem collectResults_fst (t : Nat) (l : List Result) :
    (collectResults t l).1 = l := by
  simp only [collectResults]
  split <;> rfl

/-- The one-worker demonstration run: a complete, never-cancelled
execution on one commit whose extraction fails. -/
theorem demoRunExec1 :
    RunExec wExtractFail cfg0 [c0] 1 [Ev.pickup 0, Ev.finish 0, Ev.exitClosed 0] demoFinal1 := by
  constructor
  · exact Exec.cons (Step.pickup _ 0 demoJob [] rfl rfl)
      (Exec.cons (Step.finish _ 0 demoJob rfl)
        (Exec.cons (Step.exitClosed _ 0 rfl rfl) (Exec.nil _)))
  · intro x hx
    have hx2 : x ∈ [WStatus.done] := hx
    simpa using hx2

/-- The two-worker demonstration run on the same input. -/
theorem demoRunExec2 :
    RunExec wExtractFail cfg0 [c0] 2
      [Ev.pickup 0, Ev.exitClosed 1, Ev.finish 0, Ev.exitClosed 0] demoFinal2 := by
  constructor
  · exact Exec.cons (Step.pickup _ 0 demoJob [] rfl rfl)
      (Exec.cons (Step.exitClosed _ 1 rfl rfl)
        (Exec.cons (Step.finish _ 0 demoJob rfl)
          (Exec.cons (Step.exitClosed _ 0 rfl rfl) (Exec.nil _))))
  · intro x hx
    have hx2 : x ∈ [WStatus.done, WStatus.done] := hx
    rcases List.mem_cons.mp hx2 with h | h
    · exact h
    · simpa using h

/-- The demonstration traces request no cancellation. -/
theorem demoNoCancel1 : NoCancel [Ev.pickup 0, Ev.finish 0, Ev.exitClosed 0] := by
  intro e he
  simp only [List.mem_cons, List.not_mem_nil, or_false] at he
  rcases he with rfl | rfl | rfl <;> simp

/-- The two-worker demonstration trace requests no cancellation. -/
theorem demoNoCancel2 :
    NoCancel [Ev.pickup 0, Ev.exitClosed 1, Ev.finish 0, Ev.exitClosed 0] := by
  intro e he
  simp only [List.mem_cons, List.not_mem_nil, or_false] at he
  rcases he with rfl | rfl | rfl | rfl <;> simp

/-- C1: a never-cancelled `Extractor.Run` on a non-empty list of `N`
commits with a positive worker count returns exactly `N` results whose
indices form a permutation of `[0, N)`: each index unique, in range, and
no item silently dropped. -/
theorem run_results_complete_permutation (w : World) (cfg : Config)
    (commits : List Commit) (workers : Nat) (rs : List Result) (err : Option AggErr)
    (hne : commits ≠ []) (hpos : 0 < workers)
    (hrun : RunOutNC w cfg commits workers (rs, err)) :
    rs.length = commits.length ∧
    (rs.map Result.index).Perm (List.range commits.length) := by
  rcases hrun with ⟨hc, -⟩ | ⟨-, tr, final, ⟨hexec, hdone⟩, hnc, hout⟩
  · exact absurd hc hne
  · have hrs : rs = final.results := by
      have := congrArg Prod.fst hout
      simpa [collectResults_fst] using this
    subst hrs
    have hperm := runExec_results_perm w cfg commits workers tr final hexec hnc hdone hpos
    constructor
    · rw [hperm.length_eq, List.length_map, jobsOf, List.length_map, List.enum_length]
    · have hidx := hperm.map Result.index
      rw [List.map_map, jobsOf, List.map_map] at hidx
      have hfun : (Result.index ∘ runJob w cfg) ∘ (fun p : Nat × Commit => Job.mk p.2 p.1)
          = Prod.fst := by
        funext p
        simp [runJob_index]
      rw [hfun, List.enum_map_fst] at hidx
      exact hidx

/-- Witness for C1: the one-commit, one-worker demonstration run. -/
theorem run_results_complete_permutation_witness :
    (([c0] : List Commit) ≠ [] ∧ 0 < 1 ∧
      RunOutNC wExtractFail cfg0 [c0] 1
        (collectResults 1 [runJob wExtractFail cfg0 demoJob]))
    ∧ (collectResults 1 [runJob wExtractFail cfg0 demoJob]).1.length = 1
    ∧ ((collectResults 1 [runJob wExtractFail cfg0 demoJob]).1.map Result.index).Perm
        (List.range 1) := by
  have hne : ([c0] : List Commit) ≠ [] := by simp
  have hrun : RunOutNC wExtractFail cfg0 [c0] 1
      (collectResults 1 [runJob wExtractFail cfg0 demoJob]) :=
    Or.inr ⟨hne, _, _, demoRunExec1, demoNoCancel1, rfl⟩
  have h := run_results_complete_permutation wExtractFail cfg0 [c0] 1 _ _ hne Nat.one_pos hrun
  exact ⟨⟨hne, Nat.one_pos, hrun⟩, h.1, h.2⟩

/-- C2: `Extractor.Run` returns a nil aggregate error iff no collected
result carries an error; otherwise the aggregate error reports the
failure count out of the total and carries every underlying per-item
error, and the returned list is always the full collected list. -/
theorem run_aggregate_error_iff (w : World) (cfg : Config) (commits : List Commit)
    (workers : Nat) (rs : List Result) (err : Option AggErr)
    (hrun : RunOut w cfg commits workers (rs, err)) :
    (err = none ↔ ∀ r ∈ rs, r.error = none)
    ∧ (∀ a, err = some a →
        a.total = commits.length ∧
        a.causes = rs.filterMap Result.error ∧
        a.failed = (rs.filterMap Result.error).length ∧
        0 < a.failed)
    ∧ (∀ (t : Nat) (l : List Result), (collectResults t l).1 = l) := by
  have main : (err = none ↔ ∀ r ∈ rs, r.error = none)
      ∧ (∀ a, err = some a →
          a.total = commits.length ∧
          a.causes = rs.filterMap Result.error ∧
          a.failed = (rs.filterMap Result.error).length ∧
          0 < a.failed) := ?_
  · exact ⟨main.1, main.2, collectResults_fst⟩
  rcases hrun with ⟨-, hout⟩ | ⟨-, tr, final, -, hout⟩
  · injection hout with h1 h2
    subst h1
    subst h2
    constructor
    · simp
    · intro a ha
      cases ha
  · by_cases h : 0 < (final.results.filterMap Result.error).length
    · have hout' : (rs, err) = (final.results,
          some ⟨(final.results.filterMap Result.error).length, commits.length,
            final.results.filterMap Result.error⟩) := by
        rw [hout]
        simp [collectResults, h]
      injection hout' with h1 h2
      subst h1
      subst h2
      constructor
      · constructor
        · intro hnone
          cases hnone
        · intro hall
          exfalso
          rw [List.filterMap_eq_nil_iff.mpr hall] at h
          simp at h
      · intro a ha
        injection ha with ha
        subst ha
        exact ⟨rfl, rfl, rfl, h⟩
    · have hout' : (rs, err) = (final.results, none) := by
        rw [hout]
        simp [collectResults, h]
      injection hout' with h1 h2
      subst h1
      subst h2
      constructor
      · simp only [true_iff]
        intro r hr
        by_contra hcon
        have hmem : ∃ x ∈ final.results, (Result.error x).isSome := by
          refine ⟨r, hr, ?_⟩
          cases hre : r.error
          · exact absurd hre hcon
          · rfl
        obtain ⟨x, hx, hsome⟩ := hmem
        cases hre : x.error with
        | none => rw [hre] at hsome; cases hsome
        | some v =>
          have : v ∈ final.results.filterMap Result.error :=
            List.mem_filterMap.mpr ⟨x, hx, hre⟩
          have hlen := List.length_pos.mpr (List.ne_nil_of_mem this)
          exact h hlen
      · intro a ha
        cases ha

/-- Witness for C2: the demonstration run with a failing extraction,
whose aggregate error reports one failure of one. -/
theorem run_aggregate_error_iff_witness :
    RunOut wExtractFail cfg0 [c0] 1 (collectResults 1 [runJob wExtractFail cfg0 demoJob])
    ∧ ((collectResults 1 [runJob wExtractFail cfg0 demoJob]).2 = none ↔
        ∀ r ∈ (collectResults 1 [runJob wExtractFail cfg0 demoJob]).1, r.error = none) := by
  have hne : ([c0] : List Commit) ≠ [] := by simp
  have hrun : RunOut wExtractFail cfg0 [c0] 1
      (collectResults 1 [runJob wExtractFail cfg0 demoJob]) :=
    Or.inr ⟨hne, _, _, demoRunExec1, rfl⟩
  exact ⟨hrun, (run_aggregate_error_iff wExtractFail cfg0 [c0] 1 _ _ hrun).1⟩

/-- C7: cancellation is observed only at job pickup.  A worker that is
busy with a job can only leave that state through the `finish` event,
which appends exactly its `Result` to the results channel; no event —
in particular neither `cancel` nor a cancellation-exit — removes an
in-flight job, and a cancellation-exit of this worker is impossible
while it is busy.  The `cancel` event itself changes no queue, worker or
result state. -/
theorem worker_in_flight_immune (w : World) (cfg : Config) (e : Ev)
    (s s' : PoolState) (i : Nat) (j : Job)
    (hstep : Step w cfg e s s') (hbusy : s.workers.get? i = some (WStatus.busy j)) :
    (s'.workers.get? i = some (WStatus.busy j)
      ∨ (e = Ev.finish i ∧ s'.workers.get? i = some WStatus.idle ∧
          s'.results = s.results ++ [runJob w cfg j]))
    ∧ e ≠ Ev.exitCancelled i
    ∧ (e = Ev.cancel → s'.workers = s.workers ∧ s'.queue = s.queue ∧
        s'.results = s.results) := by
  cases hstep with
  | pickup s k jk rest hw hq =>
    rcases eq_or_ne k i with rfl | hki
    · rw [hbusy] at hw
      simp at hw
    · refine ⟨Or.inl ?_, ?_, ?_⟩
      · rw [List.get?_set_ne _ _ hki]
        exact hbusy
      · intro hc
        cases hc
      · intro hc
        cases hc
  | finish s k jk hw =>
    rcases eq_or_ne k i with rfl | hki
    · rw [hbusy] at hw
      injection hw with hw2
      injection hw2 with hw3
      subst hw3
      refine ⟨Or.inr ⟨rfl, ?_, rfl⟩, ?_, ?_⟩
      · exact List.get?_set_eq_of_lt _ ((List.get?_eq_some.mp hbusy).1)
      · intro hc
        cases hc
      · intro hc
        cases hc
    · refine ⟨Or.inl ?_, ?_, ?_⟩
      · rw [List.get?_set_ne _ _ hki]
        exact hbusy
      · intro hc
        cases hc
      · intro hc
        cases hc
  | exitClosed s k hw hq =>
    rcases eq_or_ne k i with rfl | hki
    · rw [hbusy] at hw
      simp at hw
    · refine ⟨Or.inl ?_, ?_, ?_⟩
      · rw [List.get?_set_ne _ _ hki]
        exact hbusy
      · intro hc
        cases hc
      · intro hc
        cases hc
  | exitCancelled s k hw hc =>
    rcases eq_or_ne k i with rfl | hki
    · rw [hbusy] at hw
      simp at hw
    · refine ⟨Or.inl ?_, ?_, ?_⟩
      · rw [List.get?_set_ne _ _ hki]
        exact hbusy
      · intro hc2
        injection hc2 with hc3
        exact hki hc3
      · intro hc2
        cases hc2
  | cancel s =>
    refine ⟨Or.inl hbusy, ?_, ?_⟩
    · intro hc
      cases hc
    · intro hc
      exact ⟨rfl, rfl, rfl⟩

/-- Witness for C7: a concrete busy worker finishing its job emits
exactly that job's result. -/
theorem worker_in_flight_immune_witness :
    Step wExtractFail cfg0 (Ev.finish 0)
      ⟨[], [WStatus.busy demoJob], [], false⟩
      ⟨[], [WStatus.idle], [runJob wExtractFail cfg0 demoJob], false⟩
    ∧ (([WStatus.busy demoJob] : List WStatus).get? 0 = some (WStatus.busy demoJob))
    ∧ ((⟨[], [WStatus.idle], [runJob wExtractFail cfg0 demoJob], false⟩ :
          PoolState).workers.get? 0 = some (WStatus.busy demoJob)
      ∨ (Ev.finish 0 = Ev.finish 0 ∧
         (⟨[], [WStatus.idle], [runJob wExtractFail cfg0 demoJob], false⟩ :
            PoolState).workers.get? 0 = some WStatus.idle ∧
         (⟨[], [WStatus.idle], [runJob wExtractFail cfg0 demoJob], false⟩ :
            PoolState).results = [] ++ [runJob wExtractFail cfg0 demoJob])) := by
  have hstep : Step wExtractFail cfg0 (Ev.finish 0)
      ⟨[], [WStatus.busy demoJob], [], false⟩
      ⟨[], [WStatus.idle], [runJob wExtractFail cfg0 demoJob], false⟩ :=
    Step.finish ⟨[], [WStatus.busy demoJob], [], false⟩ 0 demoJob rfl
  exact ⟨hstep, rfl,
    (worker_in_flight_immune wExtractFail cfg0 (Ev.finish 0) _ _ 0 demoJob hstep rfl).1⟩

/-- C8: the degree of parallelism does not change which outcomes are
produced — two never-cancelled runs of `Extractor.Run` on the same
input with any positive worker counts return permutations of the same
`Result` list. -/
theorem run_worker_count_independent (w : World) (cfg : Config) (commits : List Commit)
    (wkA wkB : Nat) (rsA rsB : List Result) (errA errB : Option AggErr)
    (hposA : 0 < wkA) (hposB : 0 < wkB)
    (hA : RunOutNC w cfg commits wkA (rsA, errA))
    (hB : RunOutNC w cfg commits wkB (rsB, errB)) :
    rsA.Perm rsB := by
  rcases hA with ⟨hcA, houtA⟩ | ⟨hneA, trA, finalA, ⟨hexecA, hdoneA⟩, hncA, houtA⟩
  · rcases hB with ⟨hcB, houtB⟩ | ⟨hneB, -⟩
    · injection houtA with h1 h2
      injection houtB with h3 h4
      rw [h1, h3]
    · exact absurd hcA hneB
  · rcases hB with ⟨hcB, -⟩ | ⟨-, trB, finalB, ⟨hexecB, hdoneB⟩, hncB, houtB⟩
    · exact absurd hcB hneA
    · have hrsA : rsA = finalA.results := by
        have := congrArg Prod.fst houtA
        simpa [collectResults_fst] using this
      have hrsB : rsB = finalB.results := by
        have := congrArg Prod.fst houtB
        simpa [collectResults_fst] using this
      subst hrsA
      subst hrsB
      exact (runExec_results_perm w cfg commits wkA trA finalA hexecA hncA hdoneA
        hposA).trans
        (runExec_results_perm w cfg commits wkB trB finalB hexecB hncB hdoneB hposB).symm

/-- Witness for C8: the one- and two-worker demonstration runs on the
same single-commit input produce permutation-equal result lists. -/
theorem run_worker_count_independent_witness :
    (0 < 1 ∧ 0 < 2 ∧
      RunOutNC wExtractFail cfg0 [c0] 1
        (collectResults 1 [runJob wExtractFail cfg0 demoJob]) ∧
      RunOutNC wExtractFail cfg0 [c0] 2
        (collectResults 1 [runJob wExtractFail cfg0 demoJob]))
    ∧ (collectResults 1 [runJob wExtractFail cfg0 demoJob]).1.Perm
        (collectResults 1 [runJob wExtractFail cfg0 demoJob]).1 := by
  have hne : ([c0] : List Commit) ≠ [] := by simp
  have hrunA : RunOutNC wExtractFail cfg0 [c0] 1
      (collectResults 1 [runJob wExtractFail cfg0 demoJob]) :=
    Or.inr ⟨hne, _, _, demoRunExec1, demoNoCancel1, rfl⟩
  have hrunB : RunOutNC wExtractFail cfg0 [c0] 2
      (collectResults 1 [runJob wExtractFail cfg0 demoJob]) :=
    Or.inr ⟨hne, _, _, demoRunExec2, demoNoCancel2, rfl⟩
  exact ⟨⟨Nat.one_pos, by omega, hrunA, hrunB⟩,
    run_worker_count_independent wExtractFail cfg0 [c0] 1 2 _ _ _ _ Nat.one_pos
      (by omega) hrunA hrunB⟩

end Repopsy
